import Mathlib

/-
Verification of the pseudonomisation core of `orchex` (file
`orchex/dataextract.py`): the identifier-mapping store
(`DataExtract.__real_id_to_pseudo_id`), the identifier-column classifier
(the regex `[i|I][d|D]$` used by `find_id_columns` / `pseudonomise`), and
the orchestration `DataExtract.pseudonomise`.

The embedding is shallow and executable:
* a pandas numeric series is a `List (Option Rat)` (`none` is a missing
  value / NaN; a float column holds rationals);
* a python dict is an insertion-ordered association list `List (κ × β)`
  whose keys are unique in every reachable state; `dictInsert` mirrors
  python assignment `d[k] = v` (update in place if the key exists,
  append otherwise), `dictUnion a b` mirrors the merge expression
  (keys of `a` first, values from `b` win, new keys of `b` appended in
  order — folding the (key, value) pairs of `b` with `dictInsert`
  produces exactly that dict);
* python `assert` failures are the error values of `PseudoError`,
  named after the error taxonomy of the design document.
-/

set_option autoImplicit false

deriving instance DecidableEq for Except

/-- Failure kinds of the pseudonomisation subsystem.  They correspond to
the `assert` statements of `DataExtract.pseudonomise` and
`DataExtract.__real_id_to_pseudo_id` (plus the `KeyError` pandas raises
when a declared column is absent from the dataframe). -/
inductive PseudoError where
  | notFound
  | alreadyProcessed
  | unhandledIdentifierColumns (cols : List String)
  | typeConversion
  | columnNotFound (col : String)
  | mappingCollision
  deriving DecidableEq

/-- First-match lookup in an insertion-ordered dictionary (python `d.get(k)`;
keys are unique in every dict the code builds, so first match is the match). -/
def dictLookup {κ β : Type} [DecidableEq κ] : List (κ × β) → κ → Option β
  | [], _ => none
  | p :: d, k => if p.1 = k then some p.2 else dictLookup d k

/-- Python `k in d`. -/
def dictContains {κ β : Type} [DecidableEq κ] (d : List (κ × β)) (k : κ) : Bool :=
  (dictLookup d k).isSome

/-- Python `d[k] = v`: replace the value in place when the key is present,
append a fresh binding otherwise. -/
def dictInsert {κ β : Type} [DecidableEq κ] (d : List (κ × β)) (k : κ) (v : β) :
    List (κ × β) :=
  if dictContains d k then d.map (fun p => if p.1 = k then (k, v) else p)
  else d ++ [(k, v)]

/-- Python dict merge `\x7b**a, **b\x7d`, folding the bindings of `b` into `a`. -/
def dictUnion {κ β : Type} [DecidableEq κ] (a b : List (κ × β)) : List (κ × β) :=
  b.foldl (fun d p => dictInsert d p.1 p.2) a

/-- `Series.dropna`: discard missing entries. -/
def dropNa (l : List (Option Rat)) : List Rat := l.filterMap id

/-- `Series.drop_duplicates` with the default `keep="first"`: keep the first
occurrence of each value, preserving order. -/
def dedupFirst (l : List Rat) : List Rat :=
  l.foldl (fun acc x => if x ∈ acc then acc else acc ++ [x]) []

/-- `Series.astype(int)` on one finite float entry: numpy converts a float to
an integer by truncation toward zero (it does not raise on a fractional
value).  `Int.div` is the truncating division. -/
def ratTrunc (q : Rat) : Int := q.num.tdiv (q.den : Int)

/-- The series pipeline at the top of `__real_id_to_pseudo_id`:
`real_ids.dropna().drop_duplicates().astype(int)`. -/
def cleanIds (realIds : List (Option Rat)) : List Int :=
  (dedupFirst (dropNa realIds)).map ratTrunc

/-- `real_ids[~real_ids.isin(real_id_to_pseudo_id.keys())]`. -/
def newIdsOf (realIds : List (Option Rat)) (existing : List (Int × Int)) : List Int :=
  (cleanIds realIds).filter (fun k => ! dictContains existing k)

/-- Python `max` over a nonempty collection (the code only calls it on a
nonempty dict's values). -/
def listMax : List Int → Int
  | [] => 0
  | x :: xs => xs.foldl max x

/-- `max(real_id_to_pseudo_id.values()) + 1 if real_id_to_pseudo_id != \x7b\x7d else 0`. -/
def startPseudoId (existing : List (Int × Int)) : Int :=
  if existing = [] then 0 else listMax (existing.map Prod.snd) + 1

/-- The insertion sequence of the dict comprehension
`\x7bnew_real_id: i + start_pseudo_id for i, new_real_id in enumerate(new_real_ids)\x7d`. -/
def assignFrom (s : Int) : List Int → List (Int × Int)
  | [] => []
  | k :: ks => (k, s) :: assignFrom (s + 1) ks

/-- The new (key, surrogate) pairs produced by one `__real_id_to_pseudo_id` call. -/
def newAssignments (realIds : List (Option Rat)) (existing : List (Int × Int)) :
    List (Int × Int) :=
  assignFrom (startPseudoId existing) (newIdsOf realIds existing)

/-- The defensive check `len(d.keys()) == len(set(d.values()))` (dict keys are
distinct, so the key count is the length of the association list). -/
def valuesDistinctCheck (d : List (Int × Int)) : Bool :=
  d.length == (d.map Prod.snd).dedup.length

/-- `DataExtract.__real_id_to_pseudo_id`: clean the series, assign fresh
surrogates to unseen ids starting above the existing maximum, merge into a new
dict, and assert injectivity of the result. -/
def extendMapping (realIds : List (Option Rat)) (existing : List (Int × Int)) :
    Except PseudoError (List (Int × Int)) :=
  let result := dictUnion existing (newAssignments realIds existing)
  if valuesDistinctCheck result then .ok result else .error .mappingCollision

/-- First character class of the regex `[i|I][d|D]$`: inside a character
class `|` is a literal pipe, so the class is \x7b'i', '|', 'I'\x7d. -/
def isIdCharFirst (c : Char) : Bool := c = 'i' || c = '|' || c = 'I'

/-- Second character class of the regex `[i|I][d|D]$`. -/
def isIdCharSecond (c : Char) : Bool := c = 'd' || c = '|' || c = 'D'

/-- `re.search(r"[i|I][d|D]$", name)`: the two classes must match the last two
characters; python's `$` also matches just before one trailing newline. -/
def matchesIdPattern (s : String) : Bool :=
  let cs := if s.data.getLast? = some '\n' then s.data.dropLast else s.data
  match cs.reverse with
  | c2 :: c1 :: _ => isIdCharFirst c1 && isIdCharSecond c2
  | _ => false

/-- `DataExtract.find_id_columns` / the `id_columns` set comprehension in
`pseudonomise` (as an ordered list of the matching column names). -/
def findIdColumns (cols : List String) : List String := cols.filter matchesIdPattern

/-- The suffix convention as the design document words it: the last two
characters are "i"/"I" followed by "d"/"D".  Stated from the spec, for
comparison with `matchesIdPattern`. -/
def specIdSuffix (s : String) : Bool :=
  match s.data.reverse with
  | c2 :: c1 :: _ => (c1 = 'i' || c1 = 'I') && (c2 = 'd' || c2 = 'D')
  | _ => false

/-- A registered data source: its dataframe (named columns of optional
numeric cells), the declared column-to-entity mapping, the whitelist and the
one-shot flag. -/
structure DataSource where
  df : List (String × List (Option Rat))
  columns_to_entities : List (String × String)
  whitelist : List String
  is_pseudonomised : Bool
  deriving DecidableEq

/-- The data extract state the pseudonomisation core touches: the registered
sources and the shared per-entity identifier-mapping store. -/
structure DataExtract where
  data_sources : List (String × DataSource)
  pseudonomisation : List (String × List (Int × Int))
  deriving DecidableEq

/-- Python dict lookup with a float key against int keys: `101.0` hashes and
compares equal to `101`, so `Series.map(dict)` finds integer keys by numeric
equality. -/
def lookupByRatKey : List (Int × Int) → Rat → Option Int
  | [], _ => none
  | p :: d, q => if (p.1 : Rat) = q then some p.2 else lookupByRatKey d q

/-- `Series.map(mapping)` on one cell: a missing cell stays missing, a value
absent from the mapping becomes missing (NaN). -/
def mapCell (m : List (Int × Int)) (cell : Option Rat) : Option Rat :=
  cell.bind (fun q => (lookupByRatKey m q).map (fun v => (v : Rat)))

/-- `missed_columns = id_columns - mapped_columns - whitelist`. -/
def missedColumns (ds : DataSource) : List String :=
  (findIdColumns (ds.df.map Prod.fst)).filter
    (fun c => ! dictContains ds.columns_to_entities c && ! ds.whitelist.contains c)

/-- The `for col, ent in columns_to_entities.items()` loop of `pseudonomise`,
threading the dataframe and the shared store; an assertion failure stops the
loop, keeping the mutations already made (python does not roll them back). -/
def processPairs :
    List (String × String) → List (String × List (Option Rat)) →
    List (String × List (Int × Int)) →
    List (String × List (Option Rat)) × List (String × List (Int × Int)) × Option PseudoError
  | [], df, store => (df, store, none)
  | (col, ent) :: rest, df, store =>
    match dictLookup df col with
    | none => (df, store, some (.columnNotFound col))
    | some column =>
      match extendMapping column ((dictLookup store ent).getD []) with
      | .error e => (df, store, some e)
      | .ok m =>
        processPairs rest (dictInsert df col (column.map (mapCell m))) (dictInsert store ent m)

/-- `DataExtract.pseudonomise`: look the source up, enforce the one-shot flag,
enforce that every identifier-shaped column is mapped or whitelisted, process
the declared columns in order, and set the flag only after all of them
succeed.  The returned extract is the post-call state (partial mutations are
kept on failure); the second component is the failure, if any. -/
def pseudonomise (e : DataExtract) (name : String) : DataExtract × Option PseudoError :=
  match dictLookup e.data_sources name with
  | none => (e, some .notFound)
  | some ds =>
    if ds.is_pseudonomised then (e, some .alreadyProcessed)
    else if missedColumns ds = [] then
      match processPairs ds.columns_to_entities ds.df e.pseudonomisation with
      | (df2, store2, some er) =>
        ({ data_sources := dictInsert e.data_sources name { ds with df := df2 },
           pseudonomisation := store2 }, some er)
      | (df2, store2, none) =>
        ({ data_sources :=
             dictInsert e.data_sources name { ds with df := df2, is_pseudonomised := true },
           pseudonomisation := store2 }, none)
    else (e, some (.unhandledIdentifierColumns (missedColumns ds)))

/-- A sequence of `extend_mapping` calls on one entity, starting from the
empty mapping and feeding each result into the next call. -/
def chainCalls (calls : List (List (Option Rat))) : Except PseudoError (List (Int × Int)) :=
  calls.foldl
    (fun acc ids =>
      match acc with
      | .ok m => extendMapping ids m
      | .error e => .error e)
    (.ok [])

/-- A heap of python dict objects, for the aliasing-sensitive facts about
`__real_id_to_pseudo_id`: the argument dict (possibly the function's shared
mutable default `\x7b\x7d`) lives at an address, and the function allocates its
result as a fresh object. -/
structure DHeap where
  cells : List (List (Int × Int))
  deriving DecidableEq

/-- `__real_id_to_pseudo_id` at the object level: read the argument dict, and
build the merged result as a newly allocated dict.  The body only rebinds its
local name (`real_id_to_pseudo_id = \x7b**old, **new\x7d`); it performs no mutating
operation on the argument object, so the heap keeps every existing cell. -/
def extendMappingImpl (h : DHeap) (argAddr : Nat) (ids : List (Option Rat)) :
    DHeap × Except PseudoError Nat :=
  match extendMapping ids (h.cells[argAddr]?.getD []) with
  | .error e => (h, .error e)
  | .ok m => (⟨h.cells ++ [m]⟩, .ok h.cells.length)

/-! ### Dictionary lemmas -/

theorem dictLookup_insert_self {κ β : Type} [DecidableEq κ] (d : List (κ × β)) (k : κ) (v : β) :
    dictLookup (dictInsert d k v) k = some v := by
  unfold dictInsert
  split
  · rename_i hc
    induction d with
    | nil => simp [dictContains, dictLookup] at hc
    | cons p rest ih =>
      by_cases hp : p.1 = k
      · simp [dictLookup, hp]
      · have hc' : dictContains rest k := by
          simpa [dictContains, dictLookup, hp] using hc
        simpa [dictLookup, hp] using ih hc'
  · induction d with
    | nil => simp [dictLookup]
    | cons p rest ih =>
      rename_i hc
      have hp : ¬ p.1 = k := by
        intro hk
        exact hc (by simp [dictContains, dictLookup, hk])
      have hc' : ¬ dictContains rest k := by
        intro hk
        exact hc (by simp [dictContains, dictLookup, hp] at hk ⊢; exact hk)
      simpa [dictLookup, hp] using ih hc'

theorem dictLookup_map_replace {κ β : Type} [DecidableEq κ] (d : List (κ × β)) (k r : κ)
    (v : β) (hkr : k ≠ r) :
    dictLookup (d.map (fun p => if p.1 = k then (k, v) else p)) r = dictLookup d r := by
  induction d with
  | nil => simp [dictLookup]
  | cons p rest ih =>
    by_cases hp : p.1 = k
    · have h1 : ¬ p.1 = r := fun h => hkr (hp.symm.trans h)
      have h2 : ¬ k = r := fun h => hkr h
      simp [dictLookup, hp, h1, h2, ih]
    · by_cases hpr : p.1 = r
      · have h3 : ¬ r = k := fun h => hp (hpr.trans h)
        simp [dictLookup, hp, hpr, h3]
      · simp [dictLookup, hp, hpr, ih]

theorem dictLookup_append_ne {κ β : Type} [DecidableEq κ] (d : List (κ × β)) (k r : κ)
    (v : β) (hkr : k ≠ r) :
    dictLookup (d ++ [(k, v)]) r = dictLookup d r := by
  induction d with
  | nil => simp [dictLookup, fun h => hkr h]
  | cons p rest ih =>
    by_cases hpr : p.1 = r
    · simp [dictLookup, hpr]
    · simp [dictLookup, hpr, ih]

theorem dictLookup_insert_ne {κ β : Type} [DecidableEq κ] (d : List (κ × β)) (k r : κ)
    (v : β) (hkr : k ≠ r) :
    dictLookup (dictInsert d k v) r = dictLookup d r := by
  unfold dictInsert
  split
  · exact dictLookup_map_replace d k r v hkr
  · exact dictLookup_append_ne d k r v hkr

theorem dictLookup_union_of_not_keys {κ β : Type} [DecidableEq κ]
    (L : List (κ × β)) (E : List (κ × β)) (r : κ) (h : ∀ p ∈ L, p.1 ≠ r) :
    dictLookup (dictUnion E L) r = dictLookup E r := by
  induction L generalizing E with
  | nil => rfl
  | cons p rest ih =>
    have hstep : dictUnion E (p :: rest) = dictUnion (dictInsert E p.1 p.2) rest := rfl
    rw [hstep, ih (dictInsert E p.1 p.2) (fun q hq => h q (List.mem_cons_of_mem p hq)),
      dictLookup_insert_ne E p.1 r p.2 (h p (List.mem_cons_self p rest))]

theorem mem_dictInsert {κ β : Type} [DecidableEq κ] (d : List (κ × β)) (k : κ) (v : β)
    (p : κ × β) (hp : p ∈ dictInsert d k v) : p ∈ d ∨ p.1 = k := by
  unfold dictInsert at hp
  split at hp
  · rcases List.mem_map.mp hp with ⟨q, hq, hqe⟩
    by_cases hqk : q.1 = k
    · right
      rw [if_pos hqk] at hqe
      rw [← hqe]
    · left
      rw [if_neg hqk] at hqe
      exact hqe ▸ hq
  · rcases List.mem_append.mp hp with h | h
    · exact Or.inl h
    · right
      simp at h
      simp [h]

theorem mem_dictUnion {κ β : Type} [DecidableEq κ]
    (L : List (κ × β)) (E : List (κ × β)) (p : κ × β) (hp : p ∈ dictUnion E L) :
    p ∈ E ∨ p.1 ∈ L.map Prod.fst := by
  induction L generalizing E with
  | nil => exact Or.inl hp
  | cons q rest ih =>
    have hstep : dictUnion E (q :: rest) = dictUnion (dictInsert E q.1 q.2) rest := rfl
    rw [hstep] at hp
    rcases ih (dictInsert E q.1 q.2) hp with h | h
    · rcases mem_dictInsert E q.1 q.2 p h with h' | h'
      · exact Or.inl h'
      · exact Or.inr (by simp [h'])
    · exact Or.inr (by simp [h])

/-! ### Surrogate-assignment lemmas -/

theorem assignFrom_map_fst (l : List Int) (s : Int) :
    (assignFrom s l).map Prod.fst = l := by
  induction l generalizing s with
  | nil => rfl
  | cons k ks ih => simp [assignFrom, ih]

theorem assignFrom_map_snd (l : List Int) (s : Int) :
    (assignFrom s l).map Prod.snd = (List.range l.length).map (fun i : Nat => (i : Int) + s) := by
  induction l generalizing s with
  | nil => rfl
  | cons k ks ih =>
    rw [List.length_cons, List.range_succ_eq_map]
    simp only [assignFrom, List.map_cons, List.map_map, ih]
    congr 1
    · simp
    · refine List.map_congr_left (fun i _ => ?_)
      simp only [Function.comp_apply]
      push_cast
      ring

theorem le_snd_of_mem_assignFrom (l : List Int) (s : Int) (p : Int × Int)
    (hp : p ∈ assignFrom s l) : s ≤ p.2 := by
  induction l generalizing s with
  | nil => simp [assignFrom] at hp
  | cons k ks ih =>
    rcases List.mem_cons.mp hp with h | h
    · simp [h]
    · exact le_trans (by omega) (ih (s + 1) h)

theorem fst_mem_of_mem_assignFrom (l : List Int) (s : Int) (p : Int × Int)
    (hp : p ∈ assignFrom s l) : p.1 ∈ l := by
  have := List.mem_map_of_mem Prod.fst hp
  rwa [assignFrom_map_fst] at this

theorem left_le_foldl_max (xs : List Int) (a : Int) : a ≤ xs.foldl max a := by
  induction xs generalizing a with
  | nil => simp
  | cons y ys ih => exact le_trans (le_max_left a y) (ih (max a y))

theorem le_foldl_max (xs : List Int) : ∀ a v : Int, (v = a ∨ v ∈ xs) → v ≤ xs.foldl max a := by
  induction xs with
  | nil =>
    intro a v h
    rcases h with h | h
    · simp [h]
    · simp at h
  | cons y ys ih =>
    intro a v h
    rcases h with h | h
    · exact le_trans (h ▸ le_max_left a y) (left_le_foldl_max ys (max a y))
    · rcases List.mem_cons.mp h with h' | h'
      · exact le_trans (h' ▸ le_max_right a y) (left_le_foldl_max ys (max a y))
      · exact ih (max a y) v (Or.inr h')

theorem le_listMax (l : List Int) (v : Int) (hv : v ∈ l) : v ≤ listMax l := by
  cases l with
  | nil => simp at hv
  | cons x xs =>
    show v ≤ xs.foldl max x
    rcases List.mem_cons.mp hv with h | h
    · exact le_foldl_max xs x v (Or.inl h)
    · exact le_foldl_max xs x v (Or.inr h)

theorem lt_startPseudoId_of_mem (existing : List (Int × Int)) (v : Int)
    (hv : v ∈ existing.map Prod.snd) : v < startPseudoId existing := by
  match existing with
  | [] => simp at hv
  | p :: rest =>
    have hne : ¬ (p :: rest : List (Int × Int)) = [] := by simp
    rw [startPseudoId, if_neg hne]
    exact lt_of_le_of_lt (le_listMax _ v hv) (by omega)

theorem newAssignments_gt_existing (realIds : List (Option Rat))
    (existing : List (Int × Int)) (p : Int × Int) (hp : p ∈ newAssignments realIds existing)
    (v : Int) (hv : v ∈ existing.map Prod.snd) : v < p.2 :=
  lt_of_lt_of_le (lt_startPseudoId_of_mem existing v hv)
    (le_snd_of_mem_assignFrom _ _ p hp)

theorem fst_newAssignments_fresh (realIds : List (Option Rat))
    (existing : List (Int × Int)) (p : Int × Int)
    (hp : p ∈ newAssignments realIds existing) : dictContains existing p.1 = false := by
  have h1 : p.1 ∈ newIdsOf realIds existing := fst_mem_of_mem_assignFrom _ _ p hp
  have h2 := (List.mem_filter.mp h1).2
  simpa using h2

/-! ### `extendMapping` inversion lemmas -/

theorem extendMapping_ok (realIds : List (Option Rat)) (existing m : List (Int × Int))
    (h : extendMapping realIds existing = .ok m) :
    m = dictUnion existing (newAssignments realIds existing) ∧
      valuesDistinctCheck m = true := by
  simp only [extendMapping] at h
  split at h
  · rename_i hc
    cases h
    exact ⟨rfl, hc⟩
  · cases h

theorem extendMapping_error (realIds : List (Option Rat)) (existing : List (Int × Int))
    (e : PseudoError) (h : extendMapping realIds existing = .error e) :
    e = .mappingCollision := by
  simp only [extendMapping] at h
  split at h
  · cases h
  · cases h
    rfl

theorem valuesDistinct_nodup (d : List (Int × Int)) (h : valuesDistinctCheck d = true) :
    (d.map Prod.snd).Nodup := by
  have hlen : d.length = (d.map Prod.snd).dedup.length := by
    simpa [valuesDistinctCheck] using h
  have hsub : (d.map Prod.snd).dedup.Sublist (d.map Prod.snd) := List.dedup_sublist _
  have heq : (d.map Prod.snd).dedup = d.map Prod.snd :=
    hsub.eq_of_length (by rw [← hlen, List.length_map])
  have := List.nodup_dedup (d.map Prod.snd)
  rwa [heq] at this

theorem extendMapping_ok_injective (realIds : List (Option Rat))
    (existing m : List (Int × Int)) (h : extendMapping realIds existing = .ok m) :
    ∀ p ∈ m, ∀ q ∈ m, p.2 = q.2 → p.1 = q.1 := by
  have hnd := valuesDistinct_nodup m (extendMapping_ok realIds existing m h).2
  intro p hp q hq hpq
  have := List.inj_on_of_nodup_map hnd hp hq hpq
  rw [this]

theorem chainCalls_ok_cases (calls : List (List (Option Rat))) (m : List (Int × Int))
    (h : chainCalls calls = .ok m) :
    m = [] ∨ ∃ ids existing, extendMapping ids existing = .ok m := by
  have general :
      ∀ (cs : List (List (Option Rat))) (acc : Except PseudoError (List (Int × Int))),
        cs.foldl
            (fun acc ids =>
              match acc with
              | .ok m' => extendMapping ids m'
              | .error e => .error e) acc = .ok m →
          acc = .ok m ∨ ∃ ids existing, extendMapping ids existing = .ok m := by
    intro cs
    induction cs with
    | nil => exact fun acc h' => Or.inl h'
    | cons c rest ih =>
      intro acc h'
      rcases ih _ h' with hstep | hfound
      · cases acc with
        | ok m0 => exact Or.inr ⟨c, m0, hstep⟩
        | error e => exact absurd hstep (by simp)
      · exact Or.inr hfound
  rcases general calls (.ok []) h with h' | h'
  · left
    simpa using h'.symm
  · exact Or.inr h'

theorem extendMapping_ok_lookup_existing (realIds : List (Option Rat))
    (existing m : List (Int × Int)) (h : extendMapping realIds existing = .ok m)
    (r : Int) (hr : dictContains existing r = true) :
    dictLookup m r = dictLookup existing r := by
  rcases extendMapping_ok realIds existing m h with ⟨hm, -⟩
  rw [hm]
  refine dictLookup_union_of_not_keys _ existing r (fun p hp => ?_)
  intro hpr
  have := fst_newAssignments_fresh realIds existing p hp
  rw [hpr, hr] at this
  cases this

theorem mem_dedupFirst (l : List Rat) (x : Rat) (hx : x ∈ dedupFirst l) : x ∈ l := by
  have general :
      ∀ (ys : List Rat) (acc : List Rat),
        x ∈ ys.foldl (fun acc y => if y ∈ acc then acc else acc ++ [y]) acc →
          x ∈ acc ∨ x ∈ ys := by
    intro ys
    induction ys with
    | nil => exact fun acc h => Or.inl h
    | cons y rest ih =>
      intro acc h
      rcases ih _ h with h' | h'
      · dsimp only at h'
        by_cases hy : y ∈ acc
        · rw [if_pos hy] at h'
          exact Or.inl h'
        · rw [if_neg hy] at h'
          rcases List.mem_append.mp h' with h'' | h''
          · exact Or.inl h''
          · simp at h''
            exact Or.inr (by simp [h''])
      · exact Or.inr (List.mem_cons_of_mem y h')
  rcases general l [] hx with h | h
  · simp at h
  · exact h

theorem mem_cleanIds (realIds : List (Option Rat)) (k : Int) (hk : k ∈ cleanIds realIds) :
    ∃ q : Rat, some q ∈ realIds ∧ ratTrunc q = k := by
  rcases List.mem_map.mp hk with ⟨q, hq, hqk⟩
  refine ⟨q, ?_, hqk⟩
  have h1 : q ∈ dropNa realIds := mem_dedupFirst _ q hq
  rcases List.mem_filterMap.mp h1 with ⟨o, ho, hoq⟩
  cases o with
  | none => cases hoq
  | some q' =>
    simp only [id] at hoq
    cases hoq
    exact ho

theorem extendMapping_ne_typeConversion (realIds : List (Option Rat))
    (existing : List (Int × Int)) :
    extendMapping realIds existing ≠ .error .typeConversion := by
  intro h
  have := extendMapping_error realIds existing .typeConversion h
  cases this

theorem mem_extendMapping_ok (realIds : List (Option Rat)) (existing m : List (Int × Int))
    (h : extendMapping realIds existing = .ok m) (p : Int × Int) (hp : p ∈ m) :
    p ∈ existing ∨ ∃ q : Rat, some q ∈ realIds ∧ ratTrunc q = p.1 := by
  rcases extendMapping_ok realIds existing m h with ⟨hm, -⟩
  subst hm
  rcases mem_dictUnion _ existing p hp with h' | h'
  · exact Or.inl h'
  · right
    rw [newAssignments, assignFrom_map_fst] at h'
    have h2 : p.1 ∈ cleanIds realIds := (List.mem_filter.mp h').1
    exact mem_cleanIds realIds p.1 h2

theorem processPairs_no_unhandled (pairs : List (String × String))
    (df : List (String × List (Option Rat))) (store : List (String × List (Int × Int)))
    (l : List String) :
    (processPairs pairs df store).2.2 ≠ some (.unhandledIdentifierColumns l) := by
  induction pairs generalizing df store with
  | nil => simp [processPairs]
  | cons pe rest ih =>
    rcases pe with ⟨col, ent⟩
    simp only [processPairs]
    cases hcol : dictLookup df col with
    | none => simp
    | some column =>
      simp only []
      cases hext : extendMapping column ((dictLookup store ent).getD []) with
      | error e =>
        have := extendMapping_error _ _ e hext
        subst this
        simp
      | ok m => exact ih _ _

/-! ### Concrete extracts used by the end-to-end statements -/

/-- The end-to-end scenario: one source with `UserId = [101, 102, 101, None]`,
mapping `UserId` to entity `User`, empty whitelist, empty prior store. -/
def demoSource : DataSource :=
  { df := [("UserId", [some 101, some 102, some 101, none])]
    columns_to_entities := [("UserId", "User")]
    whitelist := []
    is_pseudonomised := false }

def demoExtract : DataExtract :=
  { data_sources := [("s", demoSource)], pseudonomisation := [] }

/-- The missed-column scenario: columns `UserId`, `SessionId`, `Score`,
mapping only `UserId`, empty whitelist. -/
def missedSource : DataSource :=
  { df := [("UserId", [some 1]), ("SessionId", [some 2]), ("Score", [some 3])]
    columns_to_entities := [("UserId", "User")]
    whitelist := []
    is_pseudonomised := false }

def missedExtract : DataExtract :=
  { data_sources := [("s", missedSource)], pseudonomisation := [] }

/-- A state whose store already violates injectivity for entity `Bad`, making
the defensive collision assertion fire partway through a `pseudonomise` call. -/
def collisionSource : DataSource :=
  { df := [("XId", [some 3])]
    columns_to_entities := [("XId", "Bad")]
    whitelist := []
    is_pseudonomised := false }

def collisionExtract : DataExtract :=
  { data_sources := [("s", collisionSource)]
    pseudonomisation := [("Bad", [(1, 0), (2, 0)])] }

/-! ### Claim theorems -/

/-- C2: on a source with column `UserId = [101, 102, 101, missing]`, mapping
`UserId` to entity `User`, empty whitelist and empty prior store,
`pseudonomise` succeeds, the column becomes `[0, 1, 0, missing]`, the store
holds exactly `User` mapped to `101 to 0, 102 to 1`, and the source's
`is_pseudonomised` flag is true. -/
theorem pseudonomise_end_to_end :
    (pseudonomise demoExtract "s").2 = none ∧
    (dictLookup (pseudonomise demoExtract "s").1.data_sources "s").map
        (fun d => dictLookup d.df "UserId") =
      some (some [some 0, some 1, some 0, none]) ∧
    (pseudonomise demoExtract "s").1.pseudonomisation = [("User", [(101, 0), (102, 1)])] ∧
    (dictLookup (pseudonomise demoExtract "s").1.data_sources "s").map
        DataSource.is_pseudonomised = some true := by
  decide

/-- C3: the mapping produced by any sequence of `extend_mapping` calls
starting from the empty mapping is injective (no two real ids share a
surrogate), and the only failure `extend_mapping` can signal is the
`MappingCollisionError` of the defensive injectivity assertion, so a
non-injective mapping is never returned. -/
theorem extend_mapping_injective (calls : List (List (Option Rat))) (m : List (Int × Int))
    (h : chainCalls calls = .ok m) :
    (∀ p ∈ m, ∀ q ∈ m, p.2 = q.2 → p.1 = q.1) ∧
    (∀ (ids : List (Option Rat)) (existing : List (Int × Int)) (e : PseudoError),
        extendMapping ids existing = .error e → e = .mappingCollision) := by
  constructor
  · rcases chainCalls_ok_cases calls m h with hm | ⟨ids, existing, hok⟩
    · subst hm
      intro p hp
      simp at hp
    · exact extendMapping_ok_injective ids existing m hok
  · exact fun ids existing e h' => extendMapping_error ids existing e h'

/-- C3 witness: a concrete call sequence, with the injectivity conclusion
applied at a concrete entry of the resulting mapping. -/
theorem extend_mapping_injective_witness :
    chainCalls [[some 5, some 7]] = Except.ok [(5, 0), (7, 1)] ∧ (5 : Int) = 5 :=
  ⟨by decide,
    (extend_mapping_injective [[some 5, some 7]] [(5, 0), (7, 1)] (by decide)).1
      (5, 0) (by decide) (5, 0) (by decide) rfl⟩

/-- C4: in one `extend_mapping` call the surrogates assigned to the
newly-seen ids are `start, start + 1, ...` in discovery order, where `start`
is 0 for an empty existing mapping and the existing maximum plus one
otherwise, and every assigned surrogate is strictly greater than every
surrogate already present in the existing mapping. -/
theorem extend_mapping_monotone (ids : List (Option Rat)) (existing : List (Int × Int)) :
    ((newAssignments ids existing).map Prod.snd =
      (List.range (newIdsOf ids existing).length).map
        (fun i : Nat => (i : Int) + startPseudoId existing)) ∧
    (∀ p ∈ newAssignments ids existing, ∀ v ∈ existing.map Prod.snd, v < p.2) ∧
    (existing = [] → startPseudoId existing = 0) ∧
    (existing ≠ [] → startPseudoId existing = listMax (existing.map Prod.snd) + 1) := by
  refine ⟨assignFrom_map_snd _ _, ?_, ?_, ?_⟩
  · exact fun p hp v hv => newAssignments_gt_existing ids existing p hp v hv
  · intro h
    simp [startPseudoId, h]
  · intro h
    simp [startPseudoId, h]

/-- C4 witness: with existing mapping `1 to 0`, the one new id 3 receives
surrogate 1, strictly above the existing surrogate 0, and the start value is
the existing maximum plus one. -/
theorem extend_mapping_monotone_witness :
    (0 : Int) < ((3 : Int), (1 : Int)).2 ∧
    startPseudoId [((1 : Int), (0 : Int))] =
      listMax ([((1 : Int), (0 : Int))].map Prod.snd) + 1 :=
  ⟨(extend_mapping_monotone [some 3] [(1, 0)]).2.1 (3, 1) (by decide) 0 (by decide),
    (extend_mapping_monotone [some 3] [(1, 0)]).2.2.2 (by decide)⟩

/-- C5 counterexample: two `extend_mapping` calls on the same (empty)
existing mapping whose inputs overlap at real id 7 assign different
surrogates to 7 (0 in the first call, 1 in the second), refuting the claim
that ids present in both calls receive identical surrogates. -/
theorem extend_mapping_stability_cex :
    extendMapping [some 7] [] = Except.ok [(7, 0)] ∧
    extendMapping [some 8, some 7] [] = Except.ok [(8, 0), (7, 1)] ∧
    dictLookup [((7 : Int), (0 : Int))] (7 : Int) ≠
      dictLookup [((8 : Int), (0 : Int)), (7, 1)] (7 : Int) := by
  decide

/-- C5 as amended: for two `extend_mapping` calls made with the same existing
mapping, every real id already present in that existing mapping keeps its
existing surrogate in both results (it is never reassigned); only ids new to
the existing mapping can differ between overlapping calls. -/
theorem extend_mapping_existing_stable (ids1 ids2 : List (Option Rat))
    (existing m1 m2 : List (Int × Int)) (r : Int)
    (h1 : extendMapping ids1 existing = .ok m1)
    (h2 : extendMapping ids2 existing = .ok m2)
    (hr : dictContains existing r = true) :
    dictLookup m1 r = dictLookup existing r ∧
    dictLookup m2 r = dictLookup existing r :=
  ⟨extendMapping_ok_lookup_existing ids1 existing m1 h1 r hr,
    extendMapping_ok_lookup_existing ids2 existing m2 h2 r hr⟩

/-- C5 amended witness: real id 9 with existing surrogate 4 keeps surrogate 4
in both of two overlapping calls. -/
theorem extend_mapping_existing_stable_witness :
    dictLookup [((9 : Int), (4 : Int)), (3, 5)] (9 : Int) =
      dictLookup [((9 : Int), (4 : Int))] (9 : Int) ∧
    dictLookup [((9 : Int), (4 : Int))] (9 : Int) =
      dictLookup [((9 : Int), (4 : Int))] (9 : Int) :=
  extend_mapping_existing_stable [some 9, some 3] [some 9] [(9, 4)]
    [(9, 4), (3, 5)] [(9, 4)] 9 (by decide) (by decide) (by decide)

/-- The rational 11/2, i.e. the float 5.5, written as a raw `Rat` literal so
that it evaluates by kernel reduction. -/
def halfEleven : Rat := ⟨11, 2, by decide, by decide⟩

/-- C6 counterexample: the fractional value `halfEleven` = 11/2 (i.e. 5.5) cannot be
represented as an integer, yet `extend_mapping` does not fail: it truncates
the value to 5 and returns the mapping `5 to 0`. -/
theorem extend_mapping_truncation_cex :
    halfEleven.den ≠ 1 ∧
    extendMapping [some halfEleven] [] = Except.ok [(5, 0)] := by
  decide

/-- C6 as amended: `extend_mapping` never fails with a `TypeConversionError`
on a numeric series; each remaining value is coerced by truncation toward
zero, so every entry of a produced mapping is either carried over from the
existing mapping or keyed by the truncation of some non-missing input value. -/
theorem extend_mapping_truncates (ids : List (Option Rat)) (existing : List (Int × Int)) :
    (extendMapping ids existing ≠ .error .typeConversion) ∧
    (∀ m, extendMapping ids existing = .ok m →
      ∀ p ∈ m, p ∈ existing ∨ ∃ q : Rat, some q ∈ ids ∧ ratTrunc q = p.1) :=
  ⟨extendMapping_ne_typeConversion ids existing,
    fun m hm p hp => mem_extendMapping_ok ids existing m hm p hp⟩

/-- C6 amended witness: applied to the input 11/2 over the empty existing
mapping, whose produced entry `(5, 0)` is keyed by the truncation of 11/2. -/
theorem extend_mapping_truncates_witness :
    ((5 : Int), (0 : Int)) ∈ ([] : List (Int × Int)) ∨
      ∃ q : Rat, some q ∈ [some halfEleven] ∧ ratTrunc q = (5 : Int) :=
  (extend_mapping_truncates [some halfEleven] []).2
    [(5, 0)] (by decide) (5, 0) (by decide)

/-- C7: the intended classification (case-insensitive suffix "id", including
the literal name "id") holds on the documented example, but the regex
`[i|I][d|D]$` also matches a literal pipe in either position — a column
named "x|d" is classified as an identifier even though its last two
characters are not an "i"/"I" followed by a "d"/"D". -/
theorem classifier_pipe_bug :
    findIdColumns ["UserId", "Name", "quizID", "Score"] = ["UserId", "quizID"] ∧
    matchesIdPattern "id" = true ∧
    matchesIdPattern "x|d" = true ∧
    specIdSuffix "x|d" = false ∧
    matchesIdPattern "xi|" = true ∧
    specIdSuffix "xi|" = false := by
  decide

/-- C1: for a registered, not yet pseudonomised source, the missed-column set
is exactly the identifier-classified column names minus the declared mapping
keys minus the whitelist; when it is non-empty `pseudonomise` fails with an
`UnhandledIdentifierColumnsError` naming every column in that difference, and
when it is empty no `UnhandledIdentifierColumnsError` can be raised. -/
theorem pseudonomise_missed_columns (e : DataExtract) (name : String) (ds : DataSource)
    (hds : dictLookup e.data_sources name = some ds)
    (hflag : ds.is_pseudonomised = false) :
    (∀ c, c ∈ missedColumns ds ↔
        (c ∈ ds.df.map Prod.fst ∧ matchesIdPattern c = true ∧
         dictContains ds.columns_to_entities c = false ∧
         ds.whitelist.contains c = false)) ∧
    (missedColumns ds ≠ [] →
        (pseudonomise e name).2 = some (.unhandledIdentifierColumns (missedColumns ds))) ∧
    (missedColumns ds = [] →
        ∀ l, (pseudonomise e name).2 ≠ some (.unhandledIdentifierColumns l)) := by
  refine ⟨?_, ?_, ?_⟩
  · intro c
    simp [missedColumns, findIdColumns, List.mem_filter, and_assoc]
    intro x hx
    tauto
  · intro hne
    simp only [pseudonomise, hds]
    rw [if_neg (by simp [hflag]), if_neg hne]
  · intro hemp l
    simp only [pseudonomise, hds]
    rw [if_neg (by simp [hflag]), if_pos hemp]
    rcases hp : processPairs ds.columns_to_entities ds.df e.pseudonomisation with
      ⟨df2, store2, perr⟩
    cases perr with
    | none => simp
    | some er =>
      simp only []
      intro hcontra
      have h2 : (processPairs ds.columns_to_entities ds.df e.pseudonomisation).2.2 =
          some (PseudoError.unhandledIdentifierColumns l) := by
        rw [hp]
        simpa using hcontra
      exact processPairs_no_unhandled ds.columns_to_entities ds.df e.pseudonomisation l h2

/-- C1 witness: columns `UserId`, `SessionId`, `Score` with mapping
`UserId to User` and empty whitelist fail naming exactly `SessionId`. -/
theorem pseudonomise_missed_columns_witness :
    (pseudonomise missedExtract "s").2 =
      some (.unhandledIdentifierColumns ["SessionId"]) :=
  ((pseudonomise_missed_columns missedExtract "s" missedSource (by decide) rfl).2.1
    (by decide)).trans (by decide)

/-- C8: a second `pseudonomise` call on a source whose first call succeeded
fails with an `AlreadyProcessedError` and returns the first call's output
state unchanged (same dataframe contents, mapping store and flag). -/
theorem pseudonomise_one_shot (e : DataExtract) (name : String)
    (h : (pseudonomise e name).2 = none) :
    pseudonomise (pseudonomise e name).1 name =
      ((pseudonomise e name).1, some .alreadyProcessed) := by
  rcases hds : dictLookup e.data_sources name with _ | ds
  · exfalso
    revert h
    simp [pseudonomise, hds]
  · by_cases hflag : ds.is_pseudonomised
    · exfalso
      revert h
      simp only [pseudonomise, hds]
      rw [if_pos hflag]
      simp
    · by_cases hemp : missedColumns ds = []
      · rcases hp : processPairs ds.columns_to_entities ds.df e.pseudonomisation with
          ⟨df2, store2, perr⟩
        cases perr with
        | some er =>
          exfalso
          revert h
          simp only [pseudonomise, hds]
          rw [if_neg hflag, if_pos hemp, hp]
          simp
        | none =>
          have hres : pseudonomise e name =
              ({ data_sources :=
                   dictInsert e.data_sources name
                     { ds with df := df2, is_pseudonomised := true },
                 pseudonomisation := store2 }, none) := by
            simp only [pseudonomise, hds]
            rw [if_neg hflag, if_pos hemp, hp]
          rw [hres]
          simp [pseudonomise, dictLookup_insert_self]
      · exfalso
        revert h
        simp only [pseudonomise, hds]
        rw [if_neg hflag, if_neg hemp]
        simp

/-- C8 witness: the end-to-end scenario followed by a second call on the same
source. -/
theorem pseudonomise_one_shot_witness :
    pseudonomise (pseudonomise demoExtract "s").1 "s" =
      ((pseudonomise demoExtract "s").1, some .alreadyProcessed) :=
  pseudonomise_one_shot demoExtract "s" (by decide)

/-- C9: for a registered source whose flag is false, the flag ends up true
exactly when the `pseudonomise` call returns no error; on any failure the
flag of the (possibly partially mutated) source is still false. -/
theorem pseudonomise_flag_set_only_on_success (e : DataExtract) (name : String)
    (ds : DataSource) (hds : dictLookup e.data_sources name = some ds)
    (hflag : ds.is_pseudonomised = false) :
    ((pseudonomise e name).2 = none →
        (dictLookup (pseudonomise e name).1.data_sources name).map
          DataSource.is_pseudonomised = some true) ∧
    ((pseudonomise e name).2 ≠ none →
        (dictLookup (pseudonomise e name).1.data_sources name).map
          DataSource.is_pseudonomised = some false) := by
  by_cases hemp : missedColumns ds = []
  · rcases hp : processPairs ds.columns_to_entities ds.df e.pseudonomisation with
      ⟨df2, store2, perr⟩
    cases perr with
    | none =>
      have hres : pseudonomise e name =
          ({ data_sources :=
               dictInsert e.data_sources name
                 { ds with df := df2, is_pseudonomised := true },
             pseudonomisation := store2 }, none) := by
        simp only [pseudonomise, hds]
        rw [if_neg (by simp [hflag]), if_pos hemp, hp]
      rw [hres]
      constructor
      · intro _
        simp [dictLookup_insert_self]
      · intro hcon
        exact absurd rfl hcon
    | some er =>
      have hres : pseudonomise e name =
          ({ data_sources := dictInsert e.data_sources name { ds with df := df2 },
             pseudonomisation := store2 }, some er) := by
        simp only [pseudonomise, hds]
        rw [if_neg (by simp [hflag]), if_pos hemp, hp]
      rw [hres]
      constructor
      · intro hcon
        simp at hcon
      · intro _
        simp [dictLookup_insert_self, hflag]
  · have hres : pseudonomise e name =
        (e, some (.unhandledIdentifierColumns (missedColumns ds))) := by
      simp only [pseudonomise, hds]
      rw [if_neg (by simp [hflag]), if_neg hemp]
    rw [hres]
    constructor
    · intro hcon
      simp at hcon
    · intro _
      simp [hds, hflag]

/-- C9 witness: a call that fails partway (the store already violates
injectivity for entity `Bad`, so the collision assertion fires while the
declared column is being processed) leaves the flag false. -/
theorem pseudonomise_flag_set_only_on_success_witness :
    (pseudonomise collisionExtract "s").2 = some .mappingCollision ∧
    (dictLookup (pseudonomise collisionExtract "s").1.data_sources "s").map
        DataSource.is_pseudonomised = some false :=
  ⟨by decide,
    (pseudonomise_flag_set_only_on_success collisionExtract "s" collisionSource
      (by decide) rfl).2 (by decide)⟩

/-- C10: `__real_id_to_pseudo_id` never mutates the dict object passed as its
`real_id_to_pseudo_id` argument (in particular the shared mutable default):
every pre-existing heap cell is unchanged, the returned dict is a newly
allocated object holding the merge of the old entries with the new
assignments, and when the argument is the default empty dict it is still
empty afterwards, so repeated calls omitting the argument independently
number their surrogates from 0. -/
theorem extend_mapping_no_arg_mutation (h : DHeap) (a : Nat) (ids : List (Option Rat)) :
    (∀ b, b < h.cells.length →
        (extendMappingImpl h a ids).1.cells[b]? = h.cells[b]?) ∧
    (∀ addr, (extendMappingImpl h a ids).2 = .ok addr →
        addr = h.cells.length ∧
        (extendMappingImpl h a ids).1.cells[addr]? =
          some (dictUnion (h.cells[a]?.getD [])
            (newAssignments ids (h.cells[a]?.getD [])))) ∧
    (h.cells[a]? = some [] →
        (extendMappingImpl h a ids).1.cells[a]? = some [] ∧
        newAssignments ids [] = assignFrom 0 (newIdsOf ids [])) := by
  cases hext : extendMapping ids (h.cells[a]?.getD []) with
  | error er =>
    have himpl : extendMappingImpl h a ids = (h, .error er) := by
      simp only [extendMappingImpl, hext]
    rw [himpl]
    refine ⟨fun b _ => rfl, ?_, fun hdef => ⟨hdef, rfl⟩⟩
    intro addr habs
    simp at habs
  | ok m =>
    have himpl : extendMappingImpl h a ids = (⟨h.cells ++ [m]⟩, .ok h.cells.length) := by
      simp only [extendMappingImpl, hext]
    have hok := extendMapping_ok _ _ _ hext
    rw [himpl]
    refine ⟨?_, ?_, ?_⟩
    · intro b hb
      exact List.getElem?_append_left hb
    · intro addr haddr
      have haddr2 : h.cells.length = addr := by
        simpa using haddr
      subst haddr2
      refine ⟨rfl, ?_⟩
      rw [List.getElem?_concat_length, hok.1]
    · intro hdef
      have ha : a < h.cells.length := by
        by_contra hcon
        rw [List.getElem?_eq_none (by omega)] at hdef
        cases hdef
      exact ⟨(List.getElem?_append_left ha).trans hdef, rfl⟩

/-- C10 witness: calling through a one-cell heap holding the default empty
dict leaves the default empty and allocates the result dict at a fresh
address. -/
theorem extend_mapping_no_arg_mutation_witness :
    (extendMappingImpl ⟨[[]]⟩ 0 [some 7]).1.cells[0]? = some [] ∧
    (extendMappingImpl ⟨[[]]⟩ 0 [some 7]).1.cells[1]? = some [(7, 0)] :=
  ⟨((extend_mapping_no_arg_mutation ⟨[[]]⟩ 0 [some 7]).2.2 (by decide)).1,
    (((extend_mapping_no_arg_mutation ⟨[[]]⟩ 0 [some 7]).2.1 1 (by decide)).2).trans
      (by decide)⟩
